import Mathlib

/-!
Verification of the similarity-search core of the game-catalog web API
(`src/app/utils.py`).

The shallow embedding below translates the Python functions
`load_game_data`, `get_similar_games`, `find_most_similar_game` and
`format_date`, together with the behaviour of the library calls they make
(`TfidfVectorizer(stop_words="english").fit_transform`,
`cosine_similarity`, `fuzzywuzzy.process.extractOne`), into Lean.

Modelling conventions:
* Python floats are idealised as real numbers `ℝ`; database numeric
  columns (`price`) are idealised as rationals.
* A `GameData` row is a `GameRecord`; the nullable text columns are
  `Option String`.
* Fallible code returns `Except String _`; the string names the Python
  exception raised on that path (`KeyError` from indexing a column of the
  empty `DataFrame`, `ValueError` from `fit_transform` on a corpus with an
  empty vocabulary, `IndexError` from `[0]` on an empty index list).
* `fuzzywuzzy.process.extractOne` is embedded with its selection logic
  (score every candidate, keep the first maximum, `None` iff the candidate
  list is empty) parameterised by the string-similarity scorer: the
  `scorer` argument stands for the composite of the fuzzywuzzy default
  `WRatio` scorer with its `full_process` preprocessing.  All theorems
  about the pipeline hold for every scorer.
* `sorted(..., key=lambda x: x[1], reverse=True)` is embedded as a stable
  insertion sort `sortDesc` (the Python sort is stable, also with
  `reverse=True`).
-/

namespace Segwise

/-- One row of the `GameData` table, restricted to the columns read by
`load_game_data`.  `release_date` is stored as a `"YYYY-MM-DD"` string
(the repository function `parse_date` normalises dates to such strings before
insertion). -/
structure GameRecord where
  app_id : Int
  name : String
  release_date : String
  price : ℚ
  about_game : Option String
  categories : Option String
  genres : Option String
  tags : Option String
deriving DecidableEq, Inhabited, Repr

/-- Python function `format_date` from `utils.py`: a `datetime` is rendered as
`YYYY-MM-DD`; any other value (our stored dates are already strings) is
returned unchanged, which is the branch taken in this data model. -/
def format_date (date_value : String) : String := date_value

/-- The `combined_features` column built by `load_game_data`:
`about_game.fillna("") + " " + categories.fillna("") + " " +
genres.fillna("") + " " + tags.fillna("")`. -/
def combined_features (g : GameRecord) : String :=
  g.about_game.getD "" ++ " " ++ g.categories.getD "" ++ " "
    ++ g.genres.getD "" ++ " " ++ g.tags.getD ""

/-- Error message for the `KeyError` raised by `df["about_game"]` when the
corpus is empty: `pd.DataFrame([])` has no columns at all. -/
def keyErrorMsg : String := "KeyError: about_game"

/-- Error message for `fit_transform` on a corpus whose extracted
vocabulary is empty. -/
def emptyVocabMsg : String := "ValueError: empty vocabulary"

/-- Error message for `[0]` applied to an empty list of matching indices
(and for `max()` of an empty sequence inside `extractOne`, which the
caller would hit as an index error on `None`). -/
def indexErrorMsg : String := "IndexError: list index out of range"

/-- Python function `load_game_data`: read every record and add the `combined_features`
column.  On an empty record store the `DataFrame` built from `[]` has no
columns, so the very first column access raises `KeyError`. -/
def load_game_data (games : List GameRecord) :
    Except String (List GameRecord × List String) :=
  if games.isEmpty then .error keyErrorMsg
  else .ok (games, games.map combined_features)

/-! Tokenisation: the analyzer of `TfidfVectorizer`.

`TfidfVectorizer` lower-cases the text, extracts the tokens matched by
`r"(?u)\b\w\w+\b"` (maximal runs of word characters, kept only when at
least two characters long) and then removes the built-in English
stop-word list. -/

/-- A regex word character (`\w`): letter, digit or underscore. -/
def isWordChar (c : Char) : Bool := c.isAlphanum || c = '_'

/-- Helper for `rawTokens`: walk the characters, `acc` holding the current
run of word characters in reverse; emit a token when a run of length ≥ 2
ends. -/
def tokenizeAux : List Char → List Char → List String
  | [], acc => if acc.length ≥ 2 then [String.mk acc.reverse] else []
  | c :: rest, acc =>
    if isWordChar c then tokenizeAux rest (c :: acc)
    else (if acc.length ≥ 2 then [String.mk acc.reverse] else [])
      ++ tokenizeAux rest []

/-- The tokens of one document before stop-word removal.  Lower-casing is
applied character by character (the same result as `str.lower()` on the
ASCII inputs at hand). -/
def rawTokens (s : String) : List String :=
  tokenizeAux (s.toList.map Char.toLower) []

/-- The built-in English stop-word list of scikit-learn
(`sklearn.feature_extraction.text.ENGLISH_STOP_WORDS`). -/
def englishStopWords : List String :=
  ["a", "about", "above", "across", "after", "afterwards", "again",
   "against", "all", "almost", "alone", "along", "already", "also",
   "although", "always", "am", "among", "amongst", "amoungst", "amount",
   "an", "and", "another", "any", "anyhow", "anyone", "anything",
   "anyway", "anywhere", "are", "around", "as", "at", "back", "be",
   "became", "because", "become", "becomes", "becoming", "been",
   "before", "beforehand", "behind", "being", "below", "beside",
   "besides", "between", "beyond", "bill", "both", "bottom", "but",
   "by", "call", "can", "cannot", "cant", "co", "con", "could",
   "couldnt", "cry", "de", "describe", "detail", "do", "done", "down",
   "due", "during", "each", "eg", "eight", "either", "eleven", "else",
   "elsewhere", "empty", "enough", "etc", "even", "ever", "every",
   "everyone", "everything", "everywhere", "except", "few", "fifteen",
   "fifty", "fill", "find", "fire", "first", "five", "for", "former",
   "formerly", "forty", "found", "four", "from", "front", "full",
   "further", "get", "give", "go", "had", "has", "hasnt", "have", "he",
   "hence", "her", "here", "hereafter", "hereby", "herein", "hereupon",
   "hers", "herself", "him", "himself", "his", "how", "however",
   "hundred", "i", "ie", "if", "in", "inc", "indeed", "interest",
   "into", "is", "it", "its", "itself", "keep", "last", "latter",
   "latterly", "least", "less", "ltd", "made", "many", "may", "me",
   "meanwhile", "might", "mill", "mine", "more", "moreover", "most",
   "mostly", "move", "much", "must", "my", "myself", "name", "namely",
   "neither", "never", "nevertheless", "next", "nine", "no", "nobody",
   "none", "noone", "nor", "not", "nothing", "now", "nowhere", "of",
   "off", "often", "on", "once", "one", "only", "onto", "or", "other",
   "others", "otherwise", "our", "ours", "ourselves", "out", "over",
   "own", "part", "per", "perhaps", "please", "put", "rather", "re",
   "same", "see", "seem", "seemed", "seeming", "seems", "serious",
   "several", "she", "should", "show", "side", "since", "sincere",
   "six", "sixty", "so", "some", "somehow", "someone", "something",
   "sometime", "sometimes", "somewhere", "still", "such", "system",
   "take", "ten", "than", "that", "the", "their", "them", "themselves",
   "then", "thence", "there", "thereafter", "thereby", "therefore",
   "therein", "thereupon", "these", "they", "thick", "thin", "third",
   "this", "those", "though", "three", "through", "throughout", "thru",
   "thus", "to", "together", "too", "top", "toward", "towards",
   "twelve", "twenty", "two", "un", "under", "until", "up", "upon",
   "us", "very", "via", "was", "we", "well", "were", "what", "whatever",
   "when", "whence", "whenever", "where", "whereafter", "whereas",
   "whereby", "wherein", "whereupon", "wherever", "whether", "which",
   "while", "whither", "who", "whoever", "whole", "whom", "whose",
   "why", "will", "with", "within", "without", "would", "yet", "you",
   "your", "yours", "yourself", "yourselves"]

/-- The analyzer of `TfidfVectorizer(stop_words="english")`: tokenise and
drop stop words. -/
def tokensOf (s : String) : List String :=
  (rawTokens s).filter (fun t => !(englishStopWords.contains t))

/-- The token lists of the whole corpus, in corpus order. -/
def docsOf (games : List GameRecord) : List (List String) :=
  games.map (fun g => tokensOf (combined_features g))

/-- Code-point lexicographic order on character lists (Python string
`<=`, used by scikit-learn when it sorts the vocabulary). -/
def lexLe : List Char → List Char → Bool
  | [], _ => true
  | _ :: _, [] => false
  | a :: as, b :: bs =>
    if a.val < b.val then true
    else if b.val < a.val then false
    else lexLe as bs

/-- Insert into an alphabetically sorted list of strings. -/
def insortStr (a : String) : List String → List String
  | [] => [a]
  | b :: t => if lexLe a.toList b.toList then a :: b :: t else b :: insortStr a t

/-- Alphabetical insertion sort on strings. -/
def sortStrs : List String → List String
  | [] => []
  | a :: t => insortStr a (sortStrs t)

/-- The fitted vocabulary: all distinct retained tokens of the corpus,
sorted alphabetically (scikit-learn sorts the feature names). -/
def vocabOf (docs : List (List String)) : List String :=
  sortStrs docs.flatten.eraseDups

/-! TF-IDF weights and cosine similarity.

`TfidfVectorizer` uses its defaults apart from `stop_words`: raw term
counts, `smooth_idf=True` (`idf = ln((1+N)/(1+df)) + 1`) and `norm="l2"`
(every row of the produced matrix is L2-normalised).
`sklearn.metrics.pairwise.cosine_similarity(X)` L2-normalises the rows of
its input (rows of norm zero are left unchanged, which yields similarity
0 for any pair involving them) and returns the matrix of dot products.

The weight vector of a document is represented as a function `String → ℝ`
read off at the terms of the vocabulary. -/

/-- Number of corpus documents containing the term (document frequency). -/
def dfCount (docs : List (List String)) (t : String) : ℕ :=
  (docs.filter (fun d => d.contains t)).length

/-- Smoothed inverse document frequency,
`idf = ln((1 + N) / (1 + df)) + 1`. -/
noncomputable def idf (docs : List (List String)) (t : String) : ℝ :=
  Real.log ((1 + (docs.length : ℝ)) / (1 + (dfCount docs t : ℝ))) + 1

/-- The un-normalised TF-IDF weight of term `t` in document `d`:
raw term count times `idf`. -/
noncomputable def tfidfRaw (docs : List (List String)) (d : ℕ)
    (t : String) : ℝ :=
  ((docs.getD d []).count t : ℝ) * idf docs t

/-- Sum of the squares of a weight vector over the vocabulary
(the square of its L2 norm). -/
noncomputable def qsum (vocab : List String) (u : String → ℝ) : ℝ :=
  (vocab.map (fun t => u t ^ 2)).sum

/-- Function `sklearn.preprocessing.normalize` with `norm="l2"` on one row: divide by
the L2 norm, leaving rows of norm zero unchanged. -/
noncomputable def l2normalize (vocab : List String) (u : String → ℝ) :
    String → ℝ :=
  fun t => if qsum vocab u = 0 then u t else u t / Real.sqrt (qsum vocab u)

/-- Dot product of two weight vectors over the vocabulary. -/
noncomputable def dotP (vocab : List String) (u v : String → ℝ) : ℝ :=
  (vocab.map (fun t => u t * v t)).sum

/-- Row `d` of the matrix returned by `fit_transform`: the raw TF-IDF
weights, L2-normalised (`norm="l2"`). -/
noncomputable def tfidfRow (docs : List (List String))
    (vocab : List String) (d : ℕ) : String → ℝ :=
  l2normalize vocab (tfidfRaw docs d)

/-- The matrix returned by `fit_transform`, as a list of rows in corpus
order, each row listing the weights in vocabulary order. -/
noncomputable def tfidfMatrix (docs : List (List String))
    (vocab : List String) : List (List ℝ) :=
  (List.range docs.length).map (fun d => vocab.map (tfidfRow docs vocab d))

/-- Entry of `cosine_similarity`: for rows `i` and `j`: dot product of the
L2-normalised rows. -/
noncomputable def cosSim (docs : List (List String)) (vocab : List String)
    (i j : ℕ) : ℝ :=
  dotP vocab (l2normalize vocab (tfidfRow docs vocab i))
    (l2normalize vocab (tfidfRow docs vocab j))

/-- Matrix `cosine_similarity(tfidf_matrix)` as a list of rows. -/
noncomputable def cosineMatrix (docs : List (List String))
    (vocab : List String) : List (List ℝ) :=
  (List.range docs.length).map
    (fun i => (List.range docs.length).map (fun j => cosSim docs vocab i j))

/-- The similarity matrix `get_similar_games` builds for a corpus. -/
noncomputable def gameCosMatrix (games : List GameRecord) : List (List ℝ) :=
  cosineMatrix (docsOf games) (vocabOf (docsOf games))

/-! The fuzzy matcher, `fuzzywuzzy.process.extractOne`. -/

/-- The fold inside `extractOne`: the Python `max` keeps the first element
attaining the maximal score, replacing the current best only on a
strictly greater score. -/
def bestOf (sq : String → ℕ) (init : String × ℕ) (cs : List String) :
    String × ℕ :=
  cs.foldl (fun best n => if best.2 < sq n then (n, sq n) else best) init

/-- Function `process.extractOne(query, choices)`: score every choice (the default
`score_cutoff` of 0 discards nothing since scores are non-negative) and
return the first choice attaining the maximal score, or `None` when
`choices` is empty. -/
def extractOne (scorer : String → String → ℕ) (query : String) :
    List String → Option (String × ℕ)
  | [] => none
  | c :: cs => some (bestOf (scorer query) (c, scorer query c) cs)

/-- Python function `find_most_similar_game` from `utils.py`:
`match = process.extractOne(input_name, names); return match[0] if match
else None`. -/
def find_most_similar_game (scorer : String → String → ℕ)
    (input_name : String) (names : List String) : Option String :=
  (extractOne scorer input_name names).map Prod.fst

/-! The ranker and response assembly. -/

/-- Stable insertion step for descending sort on the score component: the
incoming (originally earlier) element goes in front of the first element
whose score is not greater. -/
noncomputable def insertDesc (a : ℕ × ℝ) : List (ℕ × ℝ) → List (ℕ × ℝ)
  | [] => [a]
  | b :: t => if b.2 ≤ a.2 then a :: b :: t else b :: insertDesc a t

/-- Python `sorted(..., key=lambda x: x[1], reverse=True)`: stable descending
sort by score. -/
noncomputable def sortDesc : List (ℕ × ℝ) → List (ℕ × ℝ)
  | [] => []
  | a :: l => insertDesc a (sortDesc l)

/-- The names column, `df["name"].tolist()`. -/
def gameNames (games : List GameRecord) : List String :=
  games.map (fun g => g.name)

/-- Python `df.index[df["name"] == closest_match].tolist()`: the corpus indices
whose name equals the matched name, in ascending order. -/
def firstNameIdx (games : List GameRecord) (cm : String) : List ℕ :=
  (List.range games.length).filter
    (fun i => (gameNames games).getD i "" == cm)

/-- Python `list(enumerate(cosine_sim[idx]))`. -/
noncomputable def simRow (games : List GameRecord) (idx : ℕ) :
    List (ℕ × ℝ) :=
  ((gameCosMatrix games).getD idx []).enum

/-- Python `sorted(list(enumerate(cosine_sim[idx])), key=lambda x: x[1],
reverse=True)[1:11]`. -/
noncomputable def simScoresAt (games : List GameRecord) (idx : ℕ) :
    List (ℕ × ℝ) :=
  ((sortDesc (simRow games idx)).drop 1).take 10

/-- The fields of the `closest_match` object in the response. -/
structure MatchInfo where
  app_id : Int
  name : String
  release_date : String
  price : ℚ
deriving Repr

/-- One entry of the `similar_games` list in the response. -/
structure GameInfo where
  app_id : Int
  name : String
  release_date : String
  price : ℚ
  similarity_score : ℝ

/-- The response of `get_similar_games`. -/
structure SimilarResult where
  closest_match : MatchInfo
  similar_games : List GameInfo

/-- Assemble the `closest_match` fields from a record. -/
def mkMatch (g : GameRecord) : MatchInfo :=
  ⟨g.app_id, g.name, format_date g.release_date, g.price⟩

/-- Assemble one `similar_games` entry from a `(index, score)` pair.  In
the Python list comprehension the loop variable shadows the matched
`idx`, so entry `k` pairs the record at `sim_scores[k][0]` with the score
`sim_scores[k][1]` — exactly the score of that same entry. -/
def mkInfo (games : List GameRecord) (p : ℕ × ℝ) : GameInfo :=
  let g := games.getD p.1 default
  ⟨g.app_id, g.name, format_date g.release_date, g.price, p.2⟩

/-- The response assembled for the resolved index `idx`. -/
noncomputable def resultAt (games : List GameRecord) (idx : ℕ) :
    SimilarResult :=
  ⟨mkMatch (games.getD idx default),
   (simScoresAt games idx).map (mkInfo games)⟩

/-- Python function `get_similar_games` from `utils.py`.  The error branches mirror the
Python exceptions in the order the interpreter would raise them: the
`KeyError` inside `load_game_data` on an empty corpus, the `ValueError`
of `fit_transform` when no document contributes a vocabulary term, and
the `IndexError` of `[0]` when the matched name (only ever `None`, which
equals no name) selects no index. -/
noncomputable def get_similar_games (scorer : String → String → ℕ)
    (games : List GameRecord) (game_name : String) :
    Except String SimilarResult :=
  match load_game_data games with
  | .error e => .error e
  | .ok _ =>
    if (vocabOf (docsOf games)).isEmpty then .error emptyVocabMsg
    else
      match find_most_similar_game scorer game_name (gameNames games) with
      | none => .error indexErrorMsg
      | some cm =>
        match firstNameIdx games cm with
        | [] => .error indexErrorMsg
        | idx :: _ => .ok (resultAt games idx)

/-! Basic facts about the weight vectors. -/

theorem qsum_nonneg (vocab : List String) (u : String → ℝ) :
    0 ≤ qsum vocab u := by
  apply List.sum_nonneg
  intro x hx
  obtain ⟨t, _, rfl⟩ := List.mem_map.mp hx
  positivity

theorem dotP_comm (vocab : List String) (u v : String → ℝ) :
    dotP vocab u v = dotP vocab v u := by
  unfold dotP
  congr 1
  exact List.map_congr_left fun t _ => mul_comm _ _

theorem dotP_self (vocab : List String) (u : String → ℝ) :
    dotP vocab u u = qsum vocab u := by
  unfold dotP qsum
  congr 1
  exact List.map_congr_left fun t _ => (sq (u t)).symm

theorem dotP_nonneg (vocab : List String) (u v : String → ℝ)
    (hu : ∀ t, 0 ≤ u t) (hv : ∀ t, 0 ≤ v t) : 0 ≤ dotP vocab u v := by
  apply List.sum_nonneg
  intro x hx
  obtain ⟨t, _, rfl⟩ := List.mem_map.mp hx
  exact mul_nonneg (hu t) (hv t)

/-- Discrete Cauchy–Schwarz over the vocabulary list. -/
theorem dotP_sq_le (vocab : List String) (u v : String → ℝ) :
    dotP vocab u v ^ 2 ≤ qsum vocab u * qsum vocab v := by
  induction vocab with
  | nil => simp [dotP, qsum]
  | cons h t ih =>
    have hA : 0 ≤ qsum t u := qsum_nonneg t u
    have hB : 0 ≤ qsum t v := qsum_nonneg t v
    have hd : dotP (h :: t) u v = u h * v h + dotP t u v := by
      simp [dotP]
    have hqu : qsum (h :: t) u = u h ^ 2 + qsum t u := by
      simp [qsum]
    have hqv : qsum (h :: t) v = v h ^ 2 + qsum t v := by
      simp [qsum]
    rw [hd, hqu, hqv]
    rcases eq_or_lt_of_le hB with hB0 | hB0
    · have hS : dotP t u v = 0 := by
        have := ih
        rw [← hB0] at this
        simpa using pow_eq_zero_iff (n := 2) (by norm_num) |>.mp
          (le_antisymm (by simpa using this) (sq_nonneg _))
      rw [hS, ← hB0]
      nlinarith [sq_nonneg (u h * v h), sq_nonneg (u h), sq_nonneg (v h), hA]
    · nlinarith [ih, sq_nonneg (u h * qsum t v - v h * dotP t u v),
        mul_le_mul_of_nonneg_left ih (sq_nonneg (v h)), hA, hB0]

/-- A vector whose sum of squares over the vocabulary vanishes is zero at
every vocabulary term. -/
theorem qsum_eq_zero_imp (vocab : List String) (u : String → ℝ)
    (h : qsum vocab u = 0) : ∀ t ∈ vocab, u t = 0 := by
  induction vocab with
  | nil => simp
  | cons a l ih =>
    have hq : qsum (a :: l) u = u a ^ 2 + qsum l u := by simp [qsum]
    rw [hq] at h
    have h1 : u a ^ 2 = 0 ∧ qsum l u = 0 := by
      constructor
      · nlinarith [qsum_nonneg l u, sq_nonneg (u a)]
      · nlinarith [qsum_nonneg l u, sq_nonneg (u a)]
    intro t ht
    rcases List.mem_cons.mp ht with rfl | ht
    · exact pow_eq_zero_iff (by norm_num) |>.mp h1.1
    · exact ih h1.2 t ht

theorem dotP_eq_zero_left (vocab : List String) (u v : String → ℝ)
    (h : ∀ t ∈ vocab, u t = 0) : dotP vocab u v = 0 := by
  unfold dotP
  apply List.sum_eq_zero
  intro x hx
  obtain ⟨t, ht, rfl⟩ := List.mem_map.mp hx
  rw [h t ht, zero_mul]

/-! Facts about L2 normalisation. -/

theorem l2normalize_of_qsum_zero (vocab : List String) (u : String → ℝ)
    (h : qsum vocab u = 0) : l2normalize vocab u = u := by
  funext t
  simp [l2normalize, h]

theorem qsum_l2normalize (vocab : List String) (u : String → ℝ) :
    qsum vocab (l2normalize vocab u) =
      if qsum vocab u = 0 then 0 else 1 := by
  by_cases h : qsum vocab u = 0
  · rw [l2normalize_of_qsum_zero vocab u h, h, if_pos rfl]
  · rw [if_neg h]
    have hpos : 0 < qsum vocab u := (qsum_nonneg vocab u).lt_of_ne (Ne.symm h)
    have hs : Real.sqrt (qsum vocab u) ^ 2 = qsum vocab u :=
      Real.sq_sqrt (le_of_lt hpos)
    have heach : ∀ t : String,
        l2normalize vocab u t ^ 2 = u t ^ 2 * (qsum vocab u)⁻¹ := by
      intro t
      rw [l2normalize]
      rw [if_neg h, div_pow, hs, div_eq_mul_inv]
    calc qsum vocab (l2normalize vocab u)
        = (vocab.map (fun t => u t ^ 2 * (qsum vocab u)⁻¹)).sum := by
          unfold qsum
          exact congrArg _ (List.map_congr_left fun t _ => heach t)
      _ = (vocab.map (fun t => u t ^ 2)).sum * (qsum vocab u)⁻¹ :=
          List.sum_map_mul_right _ _ _
      _ = 1 := mul_inv_cancel₀ h

theorem l2normalize_nonneg (vocab : List String) (u : String → ℝ)
    (hu : ∀ t, 0 ≤ u t) : ∀ t, 0 ≤ l2normalize vocab u t := by
  intro t
  unfold l2normalize
  split
  · exact hu t
  · exact div_nonneg (hu t) (Real.sqrt_nonneg _)

theorem l2normalize_idem (vocab : List String) (u : String → ℝ) :
    l2normalize vocab (l2normalize vocab u) = l2normalize vocab u := by
  by_cases h : qsum vocab u = 0
  · rw [l2normalize_of_qsum_zero vocab u h, l2normalize_of_qsum_zero vocab u h]
  · have h1 : qsum vocab (l2normalize vocab u) = 1 := by
      rw [qsum_l2normalize, if_neg h]
    funext t
    rw [l2normalize]
    simp [h1]

/-! Facts about the TF-IDF weights and the similarity entries. -/

theorem dfCount_le_length (docs : List (List String)) (t : String) :
    dfCount docs t ≤ docs.length :=
  List.length_filter_le _ _

/-- The smoothed idf weight is at least 1 (`df ≤ N` makes the log
argument at least 1). -/
theorem one_le_idf (docs : List (List String)) (t : String) :
    1 ≤ idf docs t := by
  unfold idf
  have harg : (1 : ℝ) ≤ (1 + (docs.length : ℝ)) / (1 + (dfCount docs t : ℝ)) := by
    rw [le_div_iff₀ (by positivity)]
    have := dfCount_le_length docs t
    have : (dfCount docs t : ℝ) ≤ (docs.length : ℝ) := by exact_mod_cast this
    linarith
  have := Real.log_nonneg harg
  linarith

theorem idf_pos (docs : List (List String)) (t : String) : 0 < idf docs t :=
  lt_of_lt_of_le one_pos (one_le_idf docs t)

theorem tfidfRaw_nonneg (docs : List (List String)) (d : ℕ) (t : String) :
    0 ≤ tfidfRaw docs d t :=
  mul_nonneg (by positivity) (le_of_lt (idf_pos docs t))

theorem tfidfRow_nonneg (docs : List (List String)) (vocab : List String)
    (d : ℕ) : ∀ t, 0 ≤ tfidfRow docs vocab d t :=
  l2normalize_nonneg vocab _ (tfidfRaw_nonneg docs d)

theorem cosSim_nonneg (docs : List (List String)) (vocab : List String)
    (i j : ℕ) : 0 ≤ cosSim docs vocab i j :=
  dotP_nonneg vocab _ _
    (l2normalize_nonneg vocab _ (tfidfRow_nonneg docs vocab i))
    (l2normalize_nonneg vocab _ (tfidfRow_nonneg docs vocab j))

theorem cosSim_comm (docs : List (List String)) (vocab : List String)
    (i j : ℕ) : cosSim docs vocab i j = cosSim docs vocab j i :=
  dotP_comm vocab _ _

/-- The second normalisation (inside `cosine_similarity`) is the identity
on the already normalised `fit_transform` rows. -/
theorem cosSim_eq_dot_rows (docs : List (List String)) (vocab : List String)
    (i j : ℕ) :
    cosSim docs vocab i j =
      dotP vocab (tfidfRow docs vocab i) (tfidfRow docs vocab j) := by
  unfold cosSim tfidfRow
  rw [l2normalize_idem, l2normalize_idem]

theorem qsum_tfidfRow (docs : List (List String)) (vocab : List String)
    (d : ℕ) :
    qsum vocab (tfidfRow docs vocab d) =
      if qsum vocab (tfidfRaw docs d) = 0 then 0 else 1 :=
  qsum_l2normalize vocab _

/-- Any similarity entry involving a document whose raw weight vector has
zero norm is 0. -/
theorem cosSim_zero_of_qsum_zero (docs : List (List String))
    (vocab : List String) (i j : ℕ)
    (h : qsum vocab (tfidfRaw docs i) = 0) :
    cosSim docs vocab i j = 0 := by
  rw [cosSim_eq_dot_rows]
  apply dotP_eq_zero_left
  intro t ht
  have hz := qsum_eq_zero_imp vocab _ h t ht
  unfold tfidfRow l2normalize
  split
  · exact hz
  · simp [hz]

/-- Self-similarity of a document with a nonzero raw weight vector is
exactly 1. -/
theorem cosSim_self (docs : List (List String)) (vocab : List String)
    (i : ℕ) (h : qsum vocab (tfidfRaw docs i) ≠ 0) :
    cosSim docs vocab i i = 1 := by
  rw [cosSim_eq_dot_rows, dotP_self, qsum_tfidfRow, if_neg h]

/-- Every similarity entry is at most 1. -/
theorem cosSim_le_one (docs : List (List String)) (vocab : List String)
    (i j : ℕ) : cosSim docs vocab i j ≤ 1 := by
  have hsq := dotP_sq_le vocab (tfidfRow docs vocab i) (tfidfRow docs vocab j)
  have hqi : qsum vocab (tfidfRow docs vocab i) ≤ 1 := by
    rw [qsum_tfidfRow]
    split <;> norm_num
  have hqj : qsum vocab (tfidfRow docs vocab j) ≤ 1 := by
    rw [qsum_tfidfRow]
    split <;> norm_num
  have hqi0 : 0 ≤ qsum vocab (tfidfRow docs vocab i) := qsum_nonneg _ _
  have hqj0 : 0 ≤ qsum vocab (tfidfRow docs vocab j) := qsum_nonneg _ _
  have h0 : 0 ≤ cosSim docs vocab i j := cosSim_nonneg docs vocab i j
  rw [cosSim_eq_dot_rows] at h0 ⊢
  nlinarith [hsq, mul_le_one₀ hqi hqj0 hqj]

/-- The diagonal entry dominates every entry of its row. -/
theorem cosSim_diag_max (docs : List (List String)) (vocab : List String)
    (i j : ℕ) : cosSim docs vocab i j ≤ cosSim docs vocab i i := by
  by_cases h : qsum vocab (tfidfRaw docs i) = 0
  · rw [cosSim_zero_of_qsum_zero docs vocab i j h,
      cosSim_zero_of_qsum_zero docs vocab i i h]
  · rw [cosSim_self docs vocab i h]
    exact cosSim_le_one docs vocab i j

/-! Facts about the stable descending sort. -/

theorem length_insertDesc (a : ℕ × ℝ) (l : List (ℕ × ℝ)) :
    (insertDesc a l).length = l.length + 1 := by
  induction l with
  | nil => rfl
  | cons b t ih =>
    unfold insertDesc
    split
    · simp
    · simp [ih]

theorem length_sortDesc (l : List (ℕ × ℝ)) :
    (sortDesc l).length = l.length := by
  induction l with
  | nil => rfl
  | cons a t ih => simp [sortDesc, length_insertDesc, ih]

theorem perm_insertDesc (a : ℕ × ℝ) (l : List (ℕ × ℝ)) :
    (insertDesc a l).Perm (a :: l) := by
  induction l with
  | nil => exact List.Perm.refl _
  | cons b t ih =>
    unfold insertDesc
    split
    · exact List.Perm.refl _
    · exact ((ih.cons b).trans (List.Perm.swap a b t))

theorem perm_sortDesc (l : List (ℕ × ℝ)) : (sortDesc l).Perm l := by
  induction l with
  | nil => exact List.Perm.refl _
  | cons a t ih => exact (perm_insertDesc a (sortDesc t)).trans (ih.cons a)

theorem mem_sortDesc {p : ℕ × ℝ} {l : List (ℕ × ℝ)} :
    p ∈ sortDesc l ↔ p ∈ l :=
  (perm_sortDesc l).mem_iff

/-- Inserting an element whose score is at least every score in the list
puts it in front. -/
theorem insertDesc_eq_cons (a : ℕ × ℝ) (l : List (ℕ × ℝ))
    (h : ∀ q ∈ l, q.2 ≤ a.2) : insertDesc a l = a :: l := by
  cases l with
  | nil => rfl
  | cons b t => exact if_pos (h b (List.mem_cons_self b t))

/-- Stable-sort head characterisation: if the element `p` strictly
dominates everything before it and weakly dominates everything after it,
it becomes the head of the sorted list, the tail being a permutation of
everything else. -/
theorem sortDesc_append (l₁ : List (ℕ × ℝ)) (p : ℕ × ℝ) (l₂ : List (ℕ × ℝ))
    (h₁ : ∀ q ∈ l₁, q.2 < p.2) (h₂ : ∀ q ∈ l₂, q.2 ≤ p.2) :
    ∃ t, sortDesc (l₁ ++ p :: l₂) = p :: t ∧ t.Perm (l₁ ++ l₂) := by
  induction l₁ with
  | nil =>
    refine ⟨sortDesc l₂, ?_, perm_sortDesc l₂⟩
    show insertDesc p (sortDesc l₂) = p :: sortDesc l₂
    exact insertDesc_eq_cons p (sortDesc l₂)
      (fun q hq => h₂ q (mem_sortDesc.mp hq))
  | cons a l₁ ih =>
    obtain ⟨t, ht, hperm⟩ :=
      ih (fun q hq => h₁ q (List.mem_cons_of_mem a hq))
    have ha : a.2 < p.2 := h₁ a (List.mem_cons_self a _)
    refine ⟨insertDesc a t, ?_, ?_⟩
    · show insertDesc a (sortDesc (l₁ ++ p :: l₂)) = _
      rw [ht]
      have hstep : insertDesc a (p :: t) =
          if p.2 ≤ a.2 then a :: p :: t else p :: insertDesc a t := rfl
      rw [hstep, if_neg (not_le.mpr ha)]
    · exact (perm_insertDesc a t).trans (hperm.cons a)

/-- The ordering produced by the ranker: strictly larger score first, and
ascending original index on equal scores. -/
def rankRel (p q : ℕ × ℝ) : Prop :=
  q.2 < p.2 ∨ (p.2 = q.2 ∧ p.1 < q.1)

theorem insertDesc_pairwise (a : ℕ × ℝ) (l : List (ℕ × ℝ))
    (ha : ∀ b ∈ l, a.1 < b.1) (hl : l.Pairwise rankRel) :
    (insertDesc a l).Pairwise rankRel := by
  induction l with
  | nil => simp [insertDesc, List.Pairwise]
  | cons b t ih =>
    rcases List.pairwise_cons.mp hl with ⟨hb, ht⟩
    unfold insertDesc
    split
    · rename_i hba
      refine List.pairwise_cons.mpr ⟨?_, hl⟩
      intro c hc
      rcases List.mem_cons.mp hc with rfl | hc
      · rcases lt_or_eq_of_le hba with hlt | heq
        · exact Or.inl hlt
        · exact Or.inr ⟨heq.symm, ha c (List.mem_cons_self c t)⟩
      · rcases hb c hc with hlt | ⟨heq, _⟩
        · exact Or.inl (lt_of_lt_of_le hlt hba)
        · rcases lt_or_eq_of_le hba with hblt | hbeq
          · exact Or.inl (heq ▸ hblt)
          · exact Or.inr ⟨(hbeq.symm.trans heq), ha c (List.mem_cons_of_mem b hc)⟩
    · rename_i hba
      refine List.pairwise_cons.mpr ⟨?_, ih (fun c hc => ha c (List.mem_cons_of_mem b hc)) ht⟩
      intro c hc
      have hc2 := (perm_insertDesc a t).mem_iff.mp hc
      rcases List.mem_cons.mp hc2 with rfl | hc2
      · exact Or.inl (not_le.mp hba)
      · exact hb c hc2

/-- Stability: sorting a list whose original indices are strictly
increasing orders it by score descending with ties broken by ascending
index. -/
theorem sortDesc_pairwise (l : List (ℕ × ℝ))
    (h : l.Pairwise (fun p q => p.1 < q.1)) :
    (sortDesc l).Pairwise rankRel := by
  induction l with
  | nil => simp [sortDesc, List.Pairwise]
  | cons a t ih =>
    rcases List.pairwise_cons.mp h with ⟨ha, ht⟩
    exact insertDesc_pairwise a (sortDesc t)
      (fun b hb => ha b (mem_sortDesc.mp hb)) (ih ht)

/-! Facts about the fuzzy matcher. -/

/-- Full specification of the fold inside `extractOne`: the result is the
initial candidate (when nothing scores strictly higher) or the first list
element whose score exceeds the initial score and is not exceeded later
nor equalled earlier. -/
theorem bestOf_spec (sq : String → ℕ) (init : String × ℕ) (cs : List String) :
    (bestOf sq init cs = init ∧ ∀ n ∈ cs, sq n ≤ init.2) ∨
    (∃ pre n post, cs = pre ++ n :: post ∧ bestOf sq init cs = (n, sq n) ∧
      init.2 < sq n ∧ (∀ p ∈ pre, sq p < sq n) ∧ (∀ p ∈ post, sq p ≤ sq n)) := by
  induction cs generalizing init with
  | nil => exact Or.inl ⟨rfl, by simp⟩
  | cons c cs ih =>
    have hstep : bestOf sq init (c :: cs) =
        bestOf sq (if init.2 < sq c then (c, sq c) else init) cs := by
      unfold bestOf
      rw [List.foldl_cons]
    by_cases h : init.2 < sq c
    · rw [if_pos h] at hstep
      rcases ih (c, sq c) with ⟨heq, hall⟩ | ⟨pre, m, post, hcs, hres, hinit, hpre, hpost⟩
      · refine Or.inr ⟨[], c, cs, by simp, ?_, h, by simp, ?_⟩
        · rw [hstep, heq]
        · intro p hp
          exact hall p hp
      · refine Or.inr ⟨c :: pre, m, post, by rw [hcs]; rfl, ?_, ?_, ?_, hpost⟩
        · rw [hstep, hres]
        · exact lt_trans h hinit
        · intro p hp
          rcases List.mem_cons.mp hp with rfl | hp
          · exact hinit
          · exact hpre p hp
    · rw [if_neg h] at hstep
      rcases ih init with ⟨heq, hall⟩ | ⟨pre, m, post, hcs, hres, hinit, hpre, hpost⟩
      · refine Or.inl ⟨by rw [hstep, heq], ?_⟩
        intro n hn
        rcases List.mem_cons.mp hn with rfl | hn
        · exact le_of_not_lt h
        · exact hall n hn
      · refine Or.inr ⟨c :: pre, m, post, by rw [hcs]; rfl, ?_, hinit, ?_, hpost⟩
        · rw [hstep, hres]
        · intro p hp
          rcases List.mem_cons.mp hp with rfl | hp
          · exact lt_of_le_of_lt (le_of_not_lt h) hinit
          · exact hpre p hp

/-- The fold always returns either the initial pair or a pair made of a
list element with its score. -/
theorem bestOf_cases (sq : String → ℕ) (init : String × ℕ) (cs : List String) :
    bestOf sq init cs = init ∨ ∃ n ∈ cs, bestOf sq init cs = (n, sq n) := by
  rcases bestOf_spec sq init cs with ⟨heq, _⟩ | ⟨pre, m, post, hcs, hres, _, _, _⟩
  · exact Or.inl heq
  · exact Or.inr ⟨m, by rw [hcs]; exact List.mem_append_right _ (List.mem_cons_self m post), hres⟩

/-! Characterisation of the success path of `get_similar_games`. -/

theorem get_similar_games_ok_iff (scorer : String → String → ℕ)
    (games : List GameRecord) (q : String) (r : SimilarResult) :
    get_similar_games scorer games q = .ok r ↔
      games ≠ [] ∧ vocabOf (docsOf games) ≠ [] ∧
      ∃ cm idx rest,
        find_most_similar_game scorer q (gameNames games) = some cm ∧
        firstNameIdx games cm = idx :: rest ∧
        r = resultAt games idx := by
  unfold get_similar_games load_game_data
  by_cases hE : games.isEmpty
  · have : games = [] := List.isEmpty_iff.mp hE
    simp [hE, this]
  · have hne : games ≠ [] := by
      intro hcon
      rw [hcon] at hE
      exact hE rfl
    rw [if_neg hE]
    by_cases hV : (vocabOf (docsOf games)).isEmpty
    · have : vocabOf (docsOf games) = [] := List.isEmpty_iff.mp hV
      simp [hV, this]
    · have hvne : vocabOf (docsOf games) ≠ [] := by
        intro hcon
        rw [hcon] at hV
        exact hV rfl
      rw [if_neg hV]
      cases hF : find_most_similar_game scorer q (gameNames games) with
      | none => simp [hne, hvne, hF]
      | some cm =>
        cases hI : firstNameIdx games cm with
        | nil => simp [hne, hvne, hF, hI]
        | cons idx rest =>
          constructor
          · intro hr
            have hr2 : (Except.ok (resultAt games idx) : Except String SimilarResult) = Except.ok r := by
              rw [← hr]
              show _ = (match firstNameIdx games cm with
                | [] => (Except.error indexErrorMsg : Except String SimilarResult)
                | idx :: _ => Except.ok (resultAt games idx))
              rw [hI]
            injection hr2 with h
            exact ⟨hne, hvne, cm, idx, rest, rfl, hI, h.symm⟩
          · rintro ⟨-, -, cm2, idx2, rest2, hcm2, hidx2, hr⟩
            injection hcm2 with h
            subst h
            rw [hI] at hidx2
            injection hidx2 with h1 h2
            subst h1
            show (match firstNameIdx games cm with
              | [] => (Except.error indexErrorMsg : Except String SimilarResult)
              | idx :: _ => Except.ok (resultAt games idx)) = Except.ok r
            rw [hI, hr]

/-! Structure of the per-request similarity matrix and of the ranked row. -/

/-- Shorthand for the similarity entry of a corpus. -/
noncomputable def gameSim (games : List GameRecord) (i j : ℕ) : ℝ :=
  cosSim (docsOf games) (vocabOf (docsOf games)) i j

/-- Shorthand for the squared norm of the raw TF-IDF vector of document
`i` of a corpus. -/
noncomputable def gameQ (games : List GameRecord) (i : ℕ) : ℝ :=
  qsum (vocabOf (docsOf games)) (tfidfRaw (docsOf games) i)

theorem docsOf_length (games : List GameRecord) :
    (docsOf games).length = games.length :=
  List.length_map _ _

theorem gameCosMatrix_length (games : List GameRecord) :
    (gameCosMatrix games).length = games.length := by
  unfold gameCosMatrix cosineMatrix
  rw [List.length_map, List.length_range, docsOf_length]

theorem gameCosMatrix_row_length (games : List GameRecord) :
    ∀ row ∈ gameCosMatrix games, row.length = games.length := by
  intro row hrow
  unfold gameCosMatrix cosineMatrix at hrow
  obtain ⟨i, _, rfl⟩ := List.mem_map.mp hrow
  rw [List.length_map, List.length_range, docsOf_length]

theorem gameCosMatrix_row (games : List GameRecord) (idx : ℕ)
    (h : idx < games.length) :
    (gameCosMatrix games).getD idx [] =
      (List.range games.length).map (fun j => gameSim games idx j) := by
  unfold gameCosMatrix cosineMatrix gameSim
  rw [docsOf_length, List.getD_eq_getElem?_getD, List.getElem?_map,
    List.getElem?_range h]
  rfl

theorem gameCosMatrix_entry (games : List GameRecord) (i j : ℕ)
    (hi : i < games.length) (hj : j < games.length) :
    ((gameCosMatrix games).getD i []).getD j 0 = gameSim games i j := by
  rw [gameCosMatrix_row games i hi, List.getD_eq_getElem?_getD,
    List.getElem?_map, List.getElem?_range hj]
  rfl

theorem enum_map_range (n : ℕ) (f : ℕ → ℝ) :
    ((List.range n).map f).enum = (List.range n).map (fun j => (j, f j)) := by
  apply List.ext_getElem?
  intro i
  by_cases h : i < n
  · simp [List.enum, List.getElem?_range h]
  · have h1 : n ≤ i := le_of_not_lt h
    have hl : (((List.range n).map f).enum).length = n := by simp
    have hr : (((List.range n).map (fun j => (j, f j)))).length = n := by simp
    rw [List.getElem?_eq_none (by omega), List.getElem?_eq_none (by omega)]

theorem simRow_eq (games : List GameRecord) (idx : ℕ)
    (h : idx < games.length) :
    simRow games idx =
      (List.range games.length).map (fun j => (j, gameSim games idx j)) := by
  unfold simRow
  rw [gameCosMatrix_row games idx h, enum_map_range]

/-- Splitting `range n` at an inner position. -/
theorem range_decomp (n idx : ℕ) (h : idx < n) :
    List.range n =
      List.range idx ++ idx :: List.range' (idx + 1) (n - idx - 1) := by
  have h3 : List.range' 0 idx ++ List.range' (0 + idx) (n - idx) =
      List.range' 0 (n - idx + idx) := List.range'_append_1 0 idx (n - idx)
  rw [Nat.zero_add] at h3
  have h4 : n - idx + idx = n := by omega
  rw [h4] at h3
  have h5 : List.range' idx (n - idx) =
      idx :: List.range' (idx + 1) (n - idx - 1) := by
    obtain ⟨k, hk⟩ : ∃ k, n - idx = k + 1 := ⟨n - idx - 1, by omega⟩
    rw [hk, List.range'_succ, Nat.add_sub_cancel]
  rw [List.range_eq_range' n, ← h3, h5, List.range_eq_range' idx]

/-- The ranked row of the matched index: the head of the stable sort is
the first entry attaining the row maximum; under the hypothesis that no
earlier entry ties the self-similarity, that head is the self-entry
`(idx, sim idx idx)` and the remainder is a permutation of all other
entries of the row. -/
theorem sortDesc_simRow (games : List GameRecord) (idx : ℕ)
    (h : idx < games.length)
    (hlt : ∀ j < idx, gameSim games idx j < gameSim games idx idx) :
    ∃ t, sortDesc (simRow games idx) = (idx, gameSim games idx idx) :: t ∧
      t.Perm (((List.range games.length).filter (fun j => j ≠ idx)).map
        (fun j => (j, gameSim games idx j))) := by
  have hmax : ∀ j, gameSim games idx j ≤ gameSim games idx idx :=
    fun j => cosSim_diag_max (docsOf games) (vocabOf (docsOf games)) idx j
  set f : ℕ → ℕ × ℝ := fun j => (j, gameSim games idx j) with hf
  have hrow : simRow games idx =
      (List.range idx).map f ++ f idx ::
        (List.range' (idx + 1) (games.length - idx - 1)).map f := by
    rw [simRow_eq games idx h, range_decomp games.length idx h,
      List.map_append, List.map_cons]
  have h₁ : ∀ q ∈ (List.range idx).map f, q.2 < (f idx).2 := by
    intro q hq
    obtain ⟨j, hj, rfl⟩ := List.mem_map.mp hq
    exact hlt j (List.mem_range.mp hj)
  have h₂ : ∀ q ∈ (List.range' (idx + 1) (games.length - idx - 1)).map f,
      q.2 ≤ (f idx).2 := by
    intro q hq
    obtain ⟨j, _, rfl⟩ := List.mem_map.mp hq
    exact hmax j
  obtain ⟨t, ht, hperm⟩ := sortDesc_append _ (f idx) _ h₁ h₂
  refine ⟨t, by rw [hrow]; exact ht, ?_⟩
  have hfilter :
      ((List.range games.length).filter (fun j => j ≠ idx)).map f =
        (List.range idx).map f ++
          (List.range' (idx + 1) (games.length - idx - 1)).map f := by
    rw [range_decomp games.length idx h, List.filter_append, List.filter_cons,
      ← List.map_append]
    congr 2
    · apply List.filter_eq_self.mpr
      intro j hj
      have := List.mem_range.mp hj
      simp only [decide_eq_true_eq]
      omega
    · rw [if_neg (by simp)]
      apply List.filter_eq_self.mpr
      intro j hj
      have := List.mem_range'.mp hj
      simp only [decide_eq_true_eq]
      omega
  rw [hfilter]
  exact hperm

/-! Concrete corpora used to instantiate the theorems.  The scorer used
in the concrete runs is an exact-match instance of the scorer parameter;
on the inputs below the fuzzywuzzy `WRatio` scorer selects the same
candidate (an exact name match scores 100, the maximum). -/

/-- Exact-match scorer: 100 for the identical string, 0 otherwise. -/
def eqScorer (q n : String) : ℕ := if n = q then 100 else 0

/-- Record with name `A` and about-text `xx`. -/
def recA : GameRecord := ⟨1, "A", "2020-01-01", 0, some "xx", none, none, none⟩

/-- Record with name `B` and the same about-text `xx`. -/
def recB : GameRecord := ⟨2, "B", "2021-02-02", 5, some "xx", none, none, none⟩

/-- Two differently named games with identical feature text. -/
def corpus2 : List GameRecord := [recA, recB]

theorem docsOf_corpus2 : docsOf corpus2 = [["xx"], ["xx"]] := by decide

theorem vocab_corpus2 : vocabOf (docsOf corpus2) = ["xx"] := by decide

theorem idf_xx : idf [["xx"], ["xx"]] "xx" = 1 := by
  have hdf : dfCount [["xx"], ["xx"]] "xx" = 2 := by decide
  unfold idf
  rw [hdf]
  norm_num

theorem tfidfRaw_xx (i : ℕ) (h : i < 2) :
    tfidfRaw [["xx"], ["xx"]] i "xx" = 1 := by
  unfold tfidfRaw
  rw [idf_xx]
  interval_cases i
  · norm_num
  · norm_num

theorem qsum_xx (i : ℕ) (h : i < 2) :
    qsum ["xx"] (tfidfRaw [["xx"], ["xx"]] i) = 1 := by
  unfold qsum
  rw [List.map_cons, List.map_nil, List.sum_cons, List.sum_nil,
    tfidfRaw_xx i h]
  norm_num

theorem tfidfRow_xx (i : ℕ) (h : i < 2) :
    tfidfRow [["xx"], ["xx"]] ["xx"] i "xx" = 1 := by
  unfold tfidfRow l2normalize
  rw [qsum_xx i h]
  rw [if_neg one_ne_zero, tfidfRaw_xx i h, Real.sqrt_one, div_one]

theorem cosSim_xx (i j : ℕ) (hi : i < 2) (hj : j < 2) :
    cosSim [["xx"], ["xx"]] ["xx"] i j = 1 := by
  rw [cosSim_eq_dot_rows]
  unfold dotP
  rw [List.map_cons, List.map_nil, List.sum_cons, List.sum_nil,
    tfidfRow_xx i hi, tfidfRow_xx j hj]
  norm_num

theorem gameSim_corpus2 (i j : ℕ) (hi : i < 2) (hj : j < 2) :
    gameSim corpus2 i j = 1 := by
  unfold gameSim
  rw [docsOf_corpus2]
  rw [show vocabOf [["xx"], ["xx"]] = ["xx"] from by decide]
  exact cosSim_xx i j hi hj

theorem simRow_corpus2_1 :
    simRow corpus2 1 = [(0, (1 : ℝ)), (1, (1 : ℝ))] := by
  rw [simRow_eq corpus2 1 (by decide)]
  rw [show corpus2.length = 2 from rfl]
  rw [show List.range 2 = [0, 1] from rfl]
  rw [List.map_cons, List.map_cons, List.map_nil]
  rw [gameSim_corpus2 1 0 (by omega) (by omega),
    gameSim_corpus2 1 1 (by omega) (by omega)]

theorem sortDesc_pair_eq :
    sortDesc [(0, (1 : ℝ)), (1, (1 : ℝ))] = [(0, (1 : ℝ)), (1, (1 : ℝ))] := by
  simp [sortDesc, insertDesc]

theorem simScoresAt_corpus2_1 :
    simScoresAt corpus2 1 = [(1, (1 : ℝ))] := by
  unfold simScoresAt
  rw [simRow_corpus2_1, sortDesc_pair_eq]
  rfl

theorem run_corpus2_B :
    get_similar_games eqScorer corpus2 "B" = .ok (resultAt corpus2 1) := by
  apply (get_similar_games_ok_iff eqScorer corpus2 "B" (resultAt corpus2 1)).mpr
  refine ⟨by decide, ?_, "B", 1, [], by decide, by decide, rfl⟩
  rw [vocab_corpus2]
  decide

theorem simRow_corpus2_0 :
    simRow corpus2 0 = [(0, (1 : ℝ)), (1, (1 : ℝ))] := by
  rw [simRow_eq corpus2 0 (by decide)]
  rw [show corpus2.length = 2 from rfl]
  rw [show List.range 2 = [0, 1] from rfl]
  rw [List.map_cons, List.map_cons, List.map_nil]
  rw [gameSim_corpus2 0 0 (by omega) (by omega),
    gameSim_corpus2 0 1 (by omega) (by omega)]

theorem simScoresAt_corpus2_0 :
    simScoresAt corpus2 0 = [(1, (1 : ℝ))] := by
  unfold simScoresAt
  rw [simRow_corpus2_0, sortDesc_pair_eq]
  rfl

theorem run_corpus2_A :
    get_similar_games eqScorer corpus2 "A" = .ok (resultAt corpus2 0) := by
  apply (get_similar_games_ok_iff eqScorer corpus2 "A" (resultAt corpus2 0)).mpr
  refine ⟨by decide, ?_, "A", 0, [], by decide, by decide, rfl⟩
  rw [vocab_corpus2]
  decide

/-- Record with name `H` and about-text `hello`. -/
def recHello : GameRecord :=
  ⟨3, "H", "2020-03-03", 0, some "hello", none, none, none⟩

/-- Record with all four text fields null: its combined feature string is
three spaces, which yields no token at all (a zero row). -/
def recNull : GameRecord := ⟨4, "N", "2020-04-04", 0, none, none, none, none⟩

/-- A corpus with one normal document and one empty document. -/
def corpus3 : List GameRecord := [recHello, recNull]

theorem docsOf_corpus3 : docsOf corpus3 = [["hello"], []] := by decide

theorem vocab_corpus3 : vocabOf (docsOf corpus3) = ["hello"] := by decide

theorem gameQ_corpus3_1 : gameQ corpus3 1 = 0 := by
  unfold gameQ
  rw [docsOf_corpus3, show vocabOf [["hello"], []] = ["hello"] from by decide]
  have hraw : tfidfRaw [["hello"], []] 1 "hello" = 0 := by
    unfold tfidfRaw
    rw [show ([["hello"], []].getD 1 ([] : List String)) = [] from rfl]
    simp
  unfold qsum
  rw [List.map_cons, List.map_nil, List.sum_cons, List.sum_nil, hraw]
  norm_num

theorem gameSim_corpus3_11 : gameSim corpus3 1 1 = 0 := by
  unfold gameSim
  apply cosSim_zero_of_qsum_zero
  have := gameQ_corpus3_1
  unfold gameQ at this
  exact this

theorem gameQ_corpus3_0 : gameQ corpus3 0 ≠ 0 := by
  unfold gameQ
  rw [docsOf_corpus3, show vocabOf [["hello"], []] = ["hello"] from by decide]
  have hraw : tfidfRaw [["hello"], []] 0 "hello" =
      idf [["hello"], []] "hello" := by
    unfold tfidfRaw
    rw [show ([["hello"], []].getD 0 ([] : List String)) = ["hello"] from rfl]
    simp
  unfold qsum
  rw [List.map_cons, List.map_nil, List.sum_cons, List.sum_nil, hraw]
  have := idf_pos [["hello"], []] "hello"
  positivity

/-- Record whose about-text has two distinct tokens, `aa bb`. -/
def rec7 : GameRecord := ⟨7, "G", "2020-07-07", 0, some "aa bb", none, none, none⟩

/-- A one-document corpus with a two-term vocabulary. -/
def corpus7 : List GameRecord := [rec7]

theorem docsOf_corpus7 : docsOf corpus7 = [["aa", "bb"]] := by decide

theorem vocab_corpus7 : vocabOf (docsOf corpus7) = ["aa", "bb"] := by decide

theorem idf_corpus7 (t : String) (h : dfCount [["aa", "bb"]] t = 1) :
    idf [["aa", "bb"]] t = 1 := by
  unfold idf
  rw [h]
  norm_num

theorem tfidfRaw_corpus7_aa : tfidfRaw [["aa", "bb"]] 0 "aa" = 1 := by
  unfold tfidfRaw
  rw [idf_corpus7 "aa" (by decide),
    show (([["aa", "bb"]].getD 0 ([] : List String)).count "aa") = 1 from by decide]
  norm_num

theorem tfidfRaw_corpus7_bb : tfidfRaw [["aa", "bb"]] 0 "bb" = 1 := by
  unfold tfidfRaw
  rw [idf_corpus7 "bb" (by decide),
    show (([["aa", "bb"]].getD 0 ([] : List String)).count "bb") = 1 from by decide]
  norm_num

theorem qsum_corpus7_0 :
    qsum ["aa", "bb"] (tfidfRaw [["aa", "bb"]] 0) = 2 := by
  unfold qsum
  rw [List.map_cons, List.map_cons, List.map_nil, List.sum_cons,
    List.sum_cons, List.sum_nil, tfidfRaw_corpus7_aa, tfidfRaw_corpus7_bb]
  norm_num

theorem tfidfRow_corpus7_aa :
    tfidfRow [["aa", "bb"]] ["aa", "bb"] 0 "aa" = 1 / Real.sqrt 2 := by
  unfold tfidfRow l2normalize
  rw [qsum_corpus7_0]
  rw [if_neg (by norm_num), tfidfRaw_corpus7_aa]

/-- A corpus whose single document has no retained token at all: the
vectorizer raises its empty-vocabulary error. -/
def corpusNull : List GameRecord := [recNull]

theorem run_corpusNull :
    get_similar_games eqScorer corpusNull "x" = .error emptyVocabMsg := by
  show (if (vocabOf (docsOf corpusNull)).isEmpty then
      (Except.error emptyVocabMsg : Except String SimilarResult)
    else
      match find_most_similar_game eqScorer "x" (gameNames corpusNull) with
      | none => Except.error indexErrorMsg
      | some cm =>
        match firstNameIdx corpusNull cm with
        | [] => Except.error indexErrorMsg
        | idx :: _ => Except.ok (resultAt corpusNull idx)) =
    Except.error emptyVocabMsg
  rw [if_pos (by decide)]

/-- Two records sharing the name `Same` with identical feature text. -/
def recS1 : GameRecord := ⟨11, "Same", "2020-01-01", 1, some "xx", none, none, none⟩

/-- Second record with the duplicated name. -/
def recS2 : GameRecord := ⟨12, "Same", "2021-01-01", 2, some "xx", none, none, none⟩

/-- A corpus with a duplicated game name. -/
def corpusDup : List GameRecord := [recS1, recS2]

theorem docsOf_corpusDup : docsOf corpusDup = [["xx"], ["xx"]] := by decide

theorem run_corpusDup :
    get_similar_games eqScorer corpusDup "Same" = .ok (resultAt corpusDup 0) := by
  apply (get_similar_games_ok_iff eqScorer corpusDup "Same" (resultAt corpusDup 0)).mpr
  refine ⟨by decide, ?_, "Same", 0, [1], by decide, by decide, rfl⟩
  rw [show vocabOf (docsOf corpusDup) = ["xx"] from by decide]
  decide

/-- The head of `df.index[df["name"] == cm].tolist()` is the least corpus
index bearing the matched name. -/
theorem firstNameIdx_head (games : List GameRecord) (cm : String) (idx : ℕ)
    (rest : List ℕ) (h : firstNameIdx games cm = idx :: rest) :
    idx < games.length ∧ (gameNames games).getD idx "" = cm ∧
      ∀ j, j < idx → (gameNames games).getD j "" ≠ cm := by
  have hmem : idx ∈ firstNameIdx games cm := by
    rw [h]
    exact List.mem_cons_self idx rest
  unfold firstNameIdx at hmem h
  have hidx := List.mem_filter.mp hmem
  have h1 : idx < games.length := List.mem_range.mp hidx.1
  have h2 : (gameNames games).getD idx "" = cm := by
    have := hidx.2
    simpa using this
  refine ⟨h1, h2, ?_⟩
  intro j hj hcm
  have hjmem : j ∈ List.filter
      (fun i => (gameNames games).getD i "" == cm) (List.range games.length) :=
    List.mem_filter.mpr
      ⟨List.mem_range.mpr (lt_trans hj h1), by simpa using hcm⟩
  rw [h] at hjmem
  have hpair : (idx :: rest).Pairwise (· < ·) := by
    rw [← h]
    exact (List.pairwise_lt_range games.length).filter _
  rcases List.mem_cons.mp hjmem with rfl | hjr
  · omega
  · have := (List.pairwise_cons.mp hpair).1 j hjr
    omega

/-! The claim theorems. -/

/-- C1 (counterexample): on the empty corpus the similarity query does
not return an empty result — it raises: the embedded `get_similar_games`
returns the `KeyError` of `df["about_game"]` on the column-less empty
`DataFrame`, so no `.ok` result exists. -/
theorem c1_counterexample :
    get_similar_games eqScorer [] "Portal" = .error keyErrorMsg := rfl

/-- C1 (amended): on an empty corpus `get_similar_games` raises the
`KeyError` of the combined-features construction before any fuzzy
matching or matrix indexing; the Fuzzy Matcher component itself, given an
empty candidate list, does report no match (`None`). -/
theorem c1_amended_empty_corpus (scorer : String → String → ℕ) (q : String) :
    get_similar_games scorer [] q = .error keyErrorMsg ∧
    find_most_similar_game scorer q [] = none :=
  ⟨rfl, rfl⟩

/-- C5: `find_most_similar_game` returns `None` exactly on an empty
candidate list; otherwise it returns a member of the list that maximises
the scorer, namely the first candidate attaining the maximum in
iteration order (everything before it scores strictly less, everything
after it scores no more). -/
theorem c5_fuzzy_matcher (scorer : String → String → ℕ) (q : String)
    (names : List String) :
    (find_most_similar_game scorer q names = none ↔ names = []) ∧
    ∀ m, find_most_similar_game scorer q names = some m →
      m ∈ names ∧ (∀ n ∈ names, scorer q n ≤ scorer q m) ∧
      ∃ pre post, names = pre ++ m :: post ∧
        (∀ p ∈ pre, scorer q p < scorer q m) ∧
        (∀ p ∈ post, scorer q p ≤ scorer q m) := by
  constructor
  · cases names with
    | nil => simp [find_most_similar_game, extractOne]
    | cons c cs => simp [find_most_similar_game, extractOne]
  · intro m hm
    cases names with
    | nil => simp [find_most_similar_game, extractOne] at hm
    | cons c cs =>
      have hm2 : (bestOf (scorer q) (c, scorer q c) cs).1 = m := by
        simpa [find_most_similar_game, extractOne] using hm
      rcases bestOf_spec (scorer q) (c, scorer q c) cs with
        ⟨heq, hall⟩ | ⟨pre, n, post, hcs, hres, hinit, hpre, hpost⟩
      · rw [heq] at hm2
        subst hm2
        refine ⟨List.mem_cons_self c cs, ?_, [], cs, rfl, by simp, hall⟩
        intro n hn
        rcases List.mem_cons.mp hn with rfl | hn
        · exact le_rfl
        · exact hall n hn
      · rw [hres] at hm2
        subst hm2
        have hnames : c :: cs = (c :: pre) ++ n :: post := by rw [hcs]; rfl
        refine ⟨?_, ?_, c :: pre, post, hnames, ?_, hpost⟩
        · rw [hnames]
          exact List.mem_append_right _ (List.mem_cons_self n post)
        · intro x hx
          rw [hnames] at hx
          rcases List.mem_append.mp hx with hx | hx
          · rcases List.mem_cons.mp hx with rfl | hx
            · exact le_of_lt hinit
            · exact le_of_lt (hpre x hx)
          · rcases List.mem_cons.mp hx with rfl | hx
            · exact le_rfl
            · exact hpost x hx
        · intro x hx
          rcases List.mem_cons.mp hx with rfl | hx
          · exact hinit
          · exact hpre x hx

/-- C6: the Feature Composer concatenates `about_game`, `categories`,
`genres`, `tags` in that order with a single-space separator, each null
field replaced by the empty string; it is total (never raises).  The
record with only `genres = "Indie"` composes to `"  Indie "`, which the
vectorizer's analyzer treats identically to the `" Indie "` blob named by
the specification (both tokenise to `["indie"]`). -/
theorem c6_feature_composer :
    (∀ (aid : Int) (nm rd : String) (pr : ℚ) (a c g t : Option String),
      combined_features ⟨aid, nm, rd, pr, a, c, g, t⟩ =
        a.getD "" ++ " " ++ c.getD "" ++ " " ++ g.getD "" ++ " " ++ t.getD "") ∧
    combined_features ⟨9, "I", "2020-01-01", 0, none, none, some "Indie", none⟩ =
      "  Indie " ∧
    tokensOf "  Indie " = ["indie"] ∧ tokensOf " Indie " = ["indie"] :=
  ⟨fun _ _ _ _ _ _ _ _ => rfl, by decide, by decide, by decide⟩

/-- C9: the similarity pipeline is a pure function of the corpus and the
query — two runs on an unchanged corpus yield the same closest match and
the same ordered list of similar games. -/
theorem c9_determinism (scorer : String → String → ℕ)
    (games : List GameRecord) (q : String) (r₁ r₂ : SimilarResult)
    (h₁ : get_similar_games scorer games q = .ok r₁)
    (h₂ : get_similar_games scorer games q = .ok r₂) :
    r₁.closest_match = r₂.closest_match ∧
      r₁.similar_games = r₂.similar_games := by
  rw [h₁] at h₂
  injection h₂ with h
  rw [h]
  exact ⟨rfl, rfl⟩

/-- C9 (witness): instantiated at the two-game corpus and query `B`. -/
theorem c9_witness :
    (resultAt corpus2 1).closest_match = (resultAt corpus2 1).closest_match ∧
      (resultAt corpus2 1).similar_games = (resultAt corpus2 1).similar_games :=
  c9_determinism eqScorer corpus2 "B" (resultAt corpus2 1) (resultAt corpus2 1)
    run_corpus2_B run_corpus2_B

/-- C10: when the fuzzy match resolves to a name borne by several
records, the pipeline uses the first (lowest-index) record with that
name: that index carries the matched name, no smaller index does, and
both the `closest_match` fields and the scored `similar_games` entries
are assembled from that index and its matrix row. -/
theorem c10_duplicate_names (scorer : String → String → ℕ)
    (games : List GameRecord) (q : String) (r : SimilarResult) (cm : String)
    (idx : ℕ) (rest : List ℕ)
    (hok : get_similar_games scorer games q = .ok r)
    (hcm : find_most_similar_game scorer q (gameNames games) = some cm)
    (hidx : firstNameIdx games cm = idx :: rest) :
    ((gameNames games).getD idx "" = cm ∧
      ∀ j, j < idx → (gameNames games).getD j "" ≠ cm) ∧
    r.closest_match = mkMatch (games.getD idx default) ∧
    r.similar_games = (simScoresAt games idx).map (mkInfo games) := by
  obtain ⟨-, h2, h3⟩ := firstNameIdx_head games cm idx rest hidx
  obtain ⟨-, -, cm2, idx2, rest2, hcm2, hidx2, hr⟩ :=
    (get_similar_games_ok_iff scorer games q r).mp hok
  rw [hcm] at hcm2
  injection hcm2 with he
  subst he
  rw [hidx] at hidx2
  injection hidx2 with he1 he2
  subst he1
  subst hr
  exact ⟨⟨h2, h3⟩, rfl, rfl⟩

/-- C10 (witness): instantiated at the corpus with the duplicated name
`Same`; the resolved index is 0, the first record with that name. -/
theorem c10_witness :
    ((gameNames corpusDup).getD 0 "" = "Same" ∧
      ∀ j, j < 0 → (gameNames corpusDup).getD j "" ≠ "Same") ∧
    (resultAt corpusDup 0).closest_match = mkMatch (corpusDup.getD 0 default) ∧
    (resultAt corpusDup 0).similar_games =
      (simScoresAt corpusDup 0).map (mkInfo corpusDup) :=
  c10_duplicate_names eqScorer corpusDup "Same" (resultAt corpusDup 0) "Same"
    0 [1] run_corpusDup (by decide) (by decide)

/-- C3 (counterexample): the diagonal of the similarity matrix is not
1.0 for every document — for the corpus with an all-null second record
the entry (1,1) is 0 (the zero-norm row), not 1. -/
theorem c3_counterexample :
    ((gameCosMatrix corpus3).getD 1 []).getD 1 0 = 0 ∧
    ((gameCosMatrix corpus3).getD 1 []).getD 1 0 ≠ 1 := by
  have h := gameCosMatrix_entry corpus3 1 1 (by decide) (by decide)
  rw [h, gameSim_corpus3_11]
  norm_num

/-- C3 (amended): for every corpus the per-request similarity matrix is
square of size `|corpus| × |corpus|`, symmetric, has all entries in
`[0, 1]`, has value 0 in every entry involving a document whose raw
TF-IDF vector has zero norm (including that document's own diagonal
entry), and has diagonal exactly 1.0 for every document with a nonzero
raw vector. -/
theorem c3_amended_matrix_invariants (games : List GameRecord) :
    ((gameCosMatrix games).length = games.length ∧
      ∀ row ∈ gameCosMatrix games, row.length = games.length) ∧
    (∀ i j, i < games.length → j < games.length →
      ((gameCosMatrix games).getD i []).getD j 0 =
        ((gameCosMatrix games).getD j []).getD i 0) ∧
    (∀ i j, i < games.length → j < games.length →
      0 ≤ ((gameCosMatrix games).getD i []).getD j 0 ∧
        ((gameCosMatrix games).getD i []).getD j 0 ≤ 1) ∧
    (∀ i j, i < games.length → j < games.length → gameQ games i = 0 →
      ((gameCosMatrix games).getD i []).getD j 0 = 0 ∧
        ((gameCosMatrix games).getD j []).getD i 0 = 0) ∧
    (∀ i, i < games.length → gameQ games i ≠ 0 →
      ((gameCosMatrix games).getD i []).getD i 0 = 1) := by
  refine ⟨⟨gameCosMatrix_length games, gameCosMatrix_row_length games⟩,
    ?_, ?_, ?_, ?_⟩
  · intro i j hi hj
    rw [gameCosMatrix_entry games i j hi hj, gameCosMatrix_entry games j i hj hi]
    exact cosSim_comm _ _ i j
  · intro i j hi hj
    rw [gameCosMatrix_entry games i j hi hj]
    exact ⟨cosSim_nonneg _ _ i j, cosSim_le_one _ _ i j⟩
  · intro i j hi hj hq
    rw [gameCosMatrix_entry games i j hi hj, gameCosMatrix_entry games j i hj hi]
    refine ⟨cosSim_zero_of_qsum_zero _ _ i j hq, ?_⟩
    show cosSim (docsOf games) (vocabOf (docsOf games)) j i = 0
    rw [cosSim_comm _ _ j i]
    exact cosSim_zero_of_qsum_zero _ _ i j hq
  · intro i hi hq
    rw [gameCosMatrix_entry games i i hi hi]
    exact cosSim_self _ _ i hq

/-- C3 (witness): at the concrete corpus, the diagonal entry of the
nonzero document is 1 and the diagonal entry of the zero-norm document
is 0. -/
theorem c3_witness :
    ((gameCosMatrix corpus3).getD 0 []).getD 0 0 = 1 ∧
    ((gameCosMatrix corpus3).getD 1 []).getD 1 0 = 0 :=
  ⟨(c3_amended_matrix_invariants corpus3).2.2.2.2 0 (by decide) gameQ_corpus3_0,
   ((c3_amended_matrix_invariants corpus3).2.2.2.1 1 1 (by decide) (by decide)
     gameQ_corpus3_1).1⟩

/-- C8 (counterexample): a non-empty corpus need not produce an output
list at all — on a corpus whose only document retains no vocabulary term,
`get_similar_games` raises the empty-vocabulary `ValueError` instead of
returning a list of length `min(10, n-1)`. -/
theorem c8_counterexample :
    corpusNull ≠ [] ∧
    get_similar_games eqScorer corpusNull "x" = .error emptyVocabMsg :=
  ⟨by decide, run_corpusNull⟩

/-- C8 (amended): whenever `get_similar_games` succeeds, the
`similar_games` list has length `min(10, corpus_size - 1)`. -/
theorem c8_amended_topn_size (scorer : String → String → ℕ)
    (games : List GameRecord) (q : String) (r : SimilarResult)
    (hok : get_similar_games scorer games q = .ok r) :
    r.similar_games.length = min 10 (games.length - 1) := by
  obtain ⟨-, -, cm, idx, rest, hcm, hidx, hr⟩ :=
    (get_similar_games_ok_iff scorer games q r).mp hok
  obtain ⟨hlt, -, -⟩ := firstNameIdx_head games cm idx rest hidx
  subst hr
  show ((simScoresAt games idx).map (mkInfo games)).length = _
  rw [List.length_map]
  unfold simScoresAt
  rw [List.length_take, List.length_drop, length_sortDesc]
  have hrl : (simRow games idx).length = games.length := by
    rw [simRow_eq games idx hlt, List.length_map, List.length_range]
  rw [hrl]

/-- C8 (witness): at the two-game corpus the output has
`min(10, 2-1) = 1` entry. -/
theorem c8_witness :
    (resultAt corpus2 1).similar_games.length = min 10 (corpus2.length - 1) :=
  c8_amended_topn_size eqScorer corpus2 "B" (resultAt corpus2 1) run_corpus2_B

/-- C2 (counterexample): the matched game itself can appear in the
ranked output.  With two differently named records sharing identical
feature text, querying the second name resolves to index 1, every score
in its row is 1.0, the stable sort keeps the enumeration order
`[(0,1),(1,1)]`, and the `[1:11]` slice drops entry 0 — not the matched
self-entry — so the output consists exactly of the matched game `B`. -/
theorem c2_counterexample :
    get_similar_games eqScorer corpus2 "B" = .ok (resultAt corpus2 1) ∧
    (resultAt corpus2 1).closest_match.name = "B" ∧
    (simScoresAt corpus2 1).map Prod.fst = [1] ∧
    (resultAt corpus2 1).similar_games.map (fun g => g.name) = ["B"] := by
  refine ⟨run_corpus2_B, rfl, ?_, ?_⟩
  · rw [simScoresAt_corpus2_1]
    rfl
  · show ((simScoresAt corpus2 1).map (mkInfo corpus2)).map (fun g => g.name) = _
    rw [simScoresAt_corpus2_1]
    rfl

/-- C2 (amended): the entry dropped by the `[1:11]` slice is the head of
the stable descending sort, i.e. the lowest-index entry attaining the row
maximum.  Whenever no index before the matched `idx` ties its
self-similarity (in particular whenever `idx` is the unique maximiser of
its row), that head is the self-entry `(idx, sim(idx,idx))` and the
matched index never appears among the ranked output entries. -/
theorem c2_amended_self_exclusion (scorer : String → String → ℕ)
    (games : List GameRecord) (q : String) (r : SimilarResult) (cm : String)
    (idx : ℕ) (rest : List ℕ)
    (hok : get_similar_games scorer games q = .ok r)
    (hcm : find_most_similar_game scorer q (gameNames games) = some cm)
    (hidx : firstNameIdx games cm = idx :: rest)
    (hlt : ∀ j, j < idx → gameSim games idx j < gameSim games idx idx) :
    (sortDesc (simRow games idx)).head? = some (idx, gameSim games idx idx) ∧
    idx ∉ (simScoresAt games idx).map Prod.fst ∧
    r.similar_games = (simScoresAt games idx).map (mkInfo games) := by
  obtain ⟨hn, -, -⟩ := firstNameIdx_head games cm idx rest hidx
  obtain ⟨t, ht, hperm⟩ := sortDesc_simRow games idx hn hlt
  have htake : simScoresAt games idx = t.take 10 := by
    unfold simScoresAt
    rw [ht]
    rfl
  refine ⟨by rw [ht]; rfl, ?_, ?_⟩
  · intro hmem
    obtain ⟨p, hp, hfst⟩ := List.mem_map.mp hmem
    have hp2 : p ∈ t := by
      rw [htake] at hp
      exact List.mem_of_mem_take hp
    have hp3 := hperm.mem_iff.mp hp2
    obtain ⟨j, hj, hpj⟩ := List.mem_map.mp hp3
    have hne : j ≠ idx := by simpa using (List.mem_filter.mp hj).2
    rw [← hpj] at hfst
    exact hne hfst
  · obtain ⟨-, -, cm2, idx2, rest2, hcm2, hidx2, hr⟩ :=
      (get_similar_games_ok_iff scorer games q r).mp hok
    rw [hcm] at hcm2
    injection hcm2 with he
    subst he
    rw [hidx] at hidx2
    injection hidx2 with he1 he2
    subst he1
    subst hr
    rfl

/-- C2 (witness): at the two-game corpus and query `A` the matched index
is 0, the dropped head is the self-entry, and 0 never appears in the
ranked output. -/
theorem c2_witness :
    (sortDesc (simRow corpus2 0)).head? = some (0, gameSim corpus2 0 0) ∧
    0 ∉ (simScoresAt corpus2 0).map Prod.fst ∧
    (resultAt corpus2 0).similar_games = (simScoresAt corpus2 0).map (mkInfo corpus2) :=
  c2_amended_self_exclusion eqScorer corpus2 "A" (resultAt corpus2 0) "A" 0 []
    run_corpus2_A (by decide) (by decide)
    (fun j hj => absurd hj (Nat.not_lt_zero j))

/-- C4 (counterexample): the ranked output does not list all corpus
entries except the matched index: at the duplicated-features corpus and
query `B` the output indices are `[1]` (the matched game itself) while
the entries other than the matched index 1 are `[0]`. -/
theorem c4_counterexample :
    get_similar_games eqScorer corpus2 "B" = .ok (resultAt corpus2 1) ∧
    (simScoresAt corpus2 1).map Prod.fst = [1] ∧
    (List.range corpus2.length).filter (fun j => j ≠ 1) = [0] ∧
    (simScoresAt corpus2 1).map Prod.fst ≠
      (List.range corpus2.length).filter (fun j => j ≠ 1) := by
  refine ⟨run_corpus2_B, ?_, by decide, ?_⟩
  · rw [simScoresAt_corpus2_1]
    rfl
  · rw [simScoresAt_corpus2_1]
    show [1] ≠ _
    decide

/-- C4 (amended): the `similar_games` list is the image of the ranked
pair list; each ranked pair carries exactly the cosine similarity between
the matched index and that pair's index; the ranked list is ordered by
score descending with ties broken by ascending original index; and when
no index before `idx` ties the self-similarity, the ranked list consists of
the first ten elements of a sort (score descending, ties by ascending
index) of exactly the row entries of all corpus indices other than `idx`. -/
theorem c4_amended_ranking (scorer : String → String → ℕ)
    (games : List GameRecord) (q : String) (r : SimilarResult) (cm : String)
    (idx : ℕ) (rest : List ℕ)
    (hok : get_similar_games scorer games q = .ok r)
    (hcm : find_most_similar_game scorer q (gameNames games) = some cm)
    (hidx : firstNameIdx games cm = idx :: rest) :
    (r.similar_games = (simScoresAt games idx).map (mkInfo games) ∧
     (∀ p ∈ simScoresAt games idx, p.2 = gameSim games idx p.1) ∧
     (simScoresAt games idx).Pairwise rankRel) ∧
    ((∀ j, j < idx → gameSim games idx j < gameSim games idx idx) →
      ∃ full : List (ℕ × ℝ),
        List.Perm full (((List.range games.length).filter (fun j => j ≠ idx)).map
          (fun j => (j, gameSim games idx j))) ∧
        List.Pairwise rankRel full ∧ simScoresAt games idx = full.take 10) := by
  obtain ⟨hn, -, -⟩ := firstNameIdx_head games cm idx rest hidx
  have hsim := simRow_eq games idx hn
  have hpair0 : (simRow games idx).Pairwise (fun p q => p.1 < q.1) := by
    rw [hsim]
    exact (List.pairwise_lt_range games.length).map _ (fun a b hab => hab)
  have hsorted : (sortDesc (simRow games idx)).Pairwise rankRel :=
    sortDesc_pairwise _ hpair0
  refine ⟨⟨?_, ?_, ?_⟩, ?_⟩
  · obtain ⟨-, -, cm2, idx2, rest2, hcm2, hidx2, hr⟩ :=
      (get_similar_games_ok_iff scorer games q r).mp hok
    rw [hcm] at hcm2
    injection hcm2 with he
    subst he
    rw [hidx] at hidx2
    injection hidx2 with he1 he2
    subst he1
    subst hr
    rfl
  · intro p hp
    have hp2 : p ∈ sortDesc (simRow games idx) := by
      unfold simScoresAt at hp
      exact List.mem_of_mem_drop (List.mem_of_mem_take hp)
    have hp3 : p ∈ simRow games idx := mem_sortDesc.mp hp2
    rw [hsim] at hp3
    obtain ⟨j, -, hpj⟩ := List.mem_map.mp hp3
    rw [← hpj]
  · unfold simScoresAt
    exact ((hsorted.sublist (List.drop_sublist 1 _)).sublist
      (List.take_sublist 10 _))
  · intro hlt
    obtain ⟨t, ht, hperm⟩ := sortDesc_simRow games idx hn hlt
    refine ⟨t, hperm, ?_, ?_⟩
    · rw [ht] at hsorted
      exact (List.pairwise_cons.mp hsorted).2
    · unfold simScoresAt
      rw [ht]
      rfl

/-- C4 (witness): at the two-game corpus and query `A` (matched index 0,
no earlier index exists), the output is the image of the ranked list,
scores agree with the matrix row, ordering holds, and the ranked list consists
of the first ten sorted entries other than index 0. -/
theorem c4_witness :
    ((resultAt corpus2 0).similar_games =
        (simScoresAt corpus2 0).map (mkInfo corpus2) ∧
     (∀ p ∈ simScoresAt corpus2 0, p.2 = gameSim corpus2 0 p.1) ∧
     (simScoresAt corpus2 0).Pairwise rankRel) ∧
    ∃ full : List (ℕ × ℝ),
      List.Perm full (((List.range corpus2.length).filter (fun j => j ≠ 0)).map
        (fun j => (j, gameSim corpus2 0 j))) ∧
      List.Pairwise rankRel full ∧ simScoresAt corpus2 0 = full.take 10 := by
  have h := c4_amended_ranking eqScorer corpus2 "A" (resultAt corpus2 0) "A" 0 []
    run_corpus2_A (by decide) (by decide)
  exact ⟨h.1, h.2 (fun j hj => absurd hj (Nat.not_lt_zero j))⟩

/-- Entry `(d, k)` of the `fit_transform` matrix is the normalised row
`d` evaluated at the `k`-th vocabulary term. -/
theorem tfidfMatrix_entry (docs : List (List String)) (vocab : List String)
    (d k : ℕ) (hd : d < docs.length) (hk : k < vocab.length) :
    ((tfidfMatrix docs vocab).getD d []).getD k 0 =
      tfidfRow docs vocab d (vocab.getD k "") := by
  have h1 : (tfidfMatrix docs vocab).getD d [] =
      vocab.map (tfidfRow docs vocab d) := by
    unfold tfidfMatrix
    rw [List.getD_eq_getElem?_getD, List.getElem?_map, List.getElem?_range hd]
    rfl
  rw [h1, List.getD_eq_getElem?_getD, List.getElem?_map,
    List.getElem?_eq_getElem hk]
  show tfidfRow docs vocab d vocab[k] = _
  rw [List.getD_eq_getElem?_getD, List.getElem?_eq_getElem hk]
  rfl

/-- C7 (counterexample): the matrix entry is not `tf * idf` — at the
one-document corpus with text `aa bb`, the entry for `aa` is `1/√2`
(after the default `norm="l2"` row normalisation) while `tf * idf = 1`. -/
theorem c7_counterexample :
    ((tfidfMatrix (docsOf corpus7) (vocabOf (docsOf corpus7))).getD 0 []).getD 0 0 ≠
      (((docsOf corpus7).getD 0 []).count ((vocabOf (docsOf corpus7)).getD 0 "") : ℝ) *
        idf (docsOf corpus7) ((vocabOf (docsOf corpus7)).getD 0 "") := by
  rw [vocab_corpus7, docsOf_corpus7]
  rw [tfidfMatrix_entry [["aa", "bb"]] ["aa", "bb"] 0 0 (by decide) (by decide)]
  rw [show (["aa", "bb"].getD 0 "") = "aa" from rfl]
  rw [tfidfRow_corpus7_aa, idf_corpus7 "aa" (by decide),
    show (([["aa", "bb"]].getD 0 ([] : List String)).count "aa") = 1 from by decide]
  rw [Nat.cast_one, one_mul]
  intro hcon
  have hs : Real.sqrt 2 ≠ 0 := Real.sqrt_ne_zero'.mpr (by norm_num)
  rw [div_eq_one_iff_eq hs] at hcon
  have h2 : ((1 : ℝ)) ^ 2 = Real.sqrt 2 ^ 2 := by rw [← hcon]
  rw [Real.sq_sqrt (by norm_num : (0 : ℝ) ≤ 2)] at h2
  norm_num at h2

/-- C7 (amended): the vectorizer's matrix entry for vocabulary term `k`
in document `d` equals `tf * idf`, with `idf = ln((1+N)/(1+df)) + 1`,
divided by the L2 norm of the document's raw TF-IDF row (scikit-learn's
default `norm="l2"`; zero rows stay zero, making the equation below hold
unconditionally), and every nonzero normalised row has unit norm. -/
theorem c7_amended_tfidf (games : List GameRecord) (d k : ℕ)
    (hd : d < (docsOf games).length)
    (hk : k < (vocabOf (docsOf games)).length) :
    ((tfidfMatrix (docsOf games) (vocabOf (docsOf games))).getD d []).getD k 0 *
        Real.sqrt (qsum (vocabOf (docsOf games)) (tfidfRaw (docsOf games) d)) =
      ((((docsOf games).getD d []).count ((vocabOf (docsOf games)).getD k "")) : ℝ) *
        (Real.log ((1 + ((docsOf games).length : ℝ)) /
          (1 + (dfCount (docsOf games) ((vocabOf (docsOf games)).getD k "") : ℝ))) + 1) ∧
    (qsum (vocabOf (docsOf games)) (tfidfRaw (docsOf games) d) ≠ 0 →
      qsum (vocabOf (docsOf games)) (tfidfRow (docsOf games) (vocabOf (docsOf games)) d) = 1) := by
  set docs := docsOf games
  set vocab := vocabOf (docsOf games)
  constructor
  · rw [tfidfMatrix_entry docs vocab d k hd hk]
    unfold tfidfRow l2normalize
    by_cases hq : qsum vocab (tfidfRaw docs d) = 0
    · rw [if_pos hq, hq, Real.sqrt_zero, mul_zero]
      have hmem : vocab.getD k "" ∈ vocab := by
        rw [List.getD_eq_getElem?_getD, List.getElem?_eq_getElem hk]
        exact List.getElem_mem hk
      have hz := qsum_eq_zero_imp vocab _ hq (vocab.getD k "") hmem
      have hz2 : tfidfRaw docs d (vocab.getD k "") = 0 := hz
      unfold tfidfRaw idf at hz2
      exact hz2.symm
    · rw [if_neg hq]
      have hs : Real.sqrt (qsum vocab (tfidfRaw docs d)) ≠ 0 :=
        Real.sqrt_ne_zero'.mpr
          ((qsum_nonneg vocab _).lt_of_ne (Ne.symm hq))
      rw [div_mul_cancel₀ _ hs]
      rfl
  · intro hq
    rw [qsum_tfidfRow docs vocab d, if_neg hq]

/-- C7 (witness): the amended statement instantiated at the concrete
one-document corpus, entry `(0,0)`. -/
theorem c7_witness :
    ((tfidfMatrix (docsOf corpus7) (vocabOf (docsOf corpus7))).getD 0 []).getD 0 0 *
        Real.sqrt (qsum (vocabOf (docsOf corpus7)) (tfidfRaw (docsOf corpus7) 0)) =
      ((((docsOf corpus7).getD 0 []).count ((vocabOf (docsOf corpus7)).getD 0 "")) : ℝ) *
        (Real.log ((1 + ((docsOf corpus7).length : ℝ)) /
          (1 + (dfCount (docsOf corpus7) ((vocabOf (docsOf corpus7)).getD 0 "") : ℝ))) + 1) ∧
    (qsum (vocabOf (docsOf corpus7)) (tfidfRaw (docsOf corpus7) 0) ≠ 0 →
      qsum (vocabOf (docsOf corpus7)) (tfidfRow (docsOf corpus7) (vocabOf (docsOf corpus7)) 0) = 1) :=
  c7_amended_tfidf corpus7 0 0 (by decide) (by decide)

/-- C5 (witness): the matcher instantiated at the exact-match scorer and
the two-name list — querying `B` returns the member `B`, the maximiser,
with the decomposition putting the lower-scoring `A` before it. -/
theorem c5_witness :
    find_most_similar_game eqScorer "B" ["A", "B"] = some "B" ∧
    "B" ∈ ["A", "B"] ∧ (∀ n ∈ ["A", "B"], eqScorer "B" n ≤ eqScorer "B" "B") ∧
    ∃ pre post, ["A", "B"] = pre ++ "B" :: post ∧
      (∀ p ∈ pre, eqScorer "B" p < eqScorer "B" "B") ∧
      (∀ p ∈ post, eqScorer "B" p ≤ eqScorer "B" "B") := by
  have h := (c5_fuzzy_matcher eqScorer "B" ["A", "B"]).2 "B" (by decide)
  exact ⟨by decide, h⟩

end Segwise
